import Mathlib

/-!
Shallow embedding of the rule-driven state-machine engine
(`statemachine.js`: `Context`, `StateMachine`, `StateMachineBuilder`),
its tokenizer specialization (`tokenizer.js`: `accept`, `state`, `emit`,
`error`, `push`, `pop`, `call`, `ret`), and the stream contract of
`util.js` (`streamify` over a string: one character per pull, then the
end signal forever).

Input items are characters; the JavaScript value `undefined` (the end
signal, and any not-yet-set field) is modelled by `Option.none`.
A thrown `Error` is modelled by the `Err` type carried in `Except`.
-/

/-- An output token: `{type, value}`. -/
structure Token where
  type : String
  value : String
deriving DecidableEq, Repr

/-- A thrown `Error`, by throw site:
`Err.abort msg pos item` is the tokenizer `error(msg)` action, whose message
interpolates the current position and current item;
`Err.emptyCallstack s` is `ret()` throwing on an empty/missing callstack;
`Err.missingState s` is the engine dereferencing `this.states[context.state]`
when that lookup is `undefined` (a TypeError in JavaScript). -/
inductive Err where
  | abort (msg : String) (position : Int) (item : Option Char)
  | emptyCallstack (state : Option String)
  | missingState (state : Option String)
deriving DecidableEq, Repr

/-- The per-run mutable `Context`. The constructor only sets `state`,
`currentItem` (undefined), `currentPosition` (-1) and `tokens` ([]);
`finished` is unset (falsy) and the tokenizer fields `buffer`, `charstack`,
`callstack` are created lazily by the initializer / actions. `buffer` is
modelled as a `String` defaulting to `""` (every machine under study
installs the tokenizer context initializer, which sets it to `""` before
any action reads it); the two stacks keep their never-initialized state
as `none`. -/
structure Context where
  state : Option String
  currentItem : Option Char := none
  currentPosition : Int := -1
  tokens : List Token := []
  finished : Bool := false
  buffer : String := ""
  charstack : Option (List (Option Char)) := none
  callstack : Option (List (Option String)) := none
deriving DecidableEq, Repr

/-- `new Context(initialState)`. -/
def Context.init (initialState : Option String) : Context :=
  { state := initialState }

/-- `Context.changeState`: an immediate assignment `this.state = state`. -/
def Context.changeState (c : Context) (s : Option String) : Context :=
  { c with state := s }

/-- `Context.emit`: `this.tokens.push(token)`. -/
def Context.emit (c : Context) (t : Token) : Context :=
  { c with tokens := c.tokens ++ [t] }

/-- A matcher is called with the context and returns a boolean; it may also
mutate the context (the `pop()` matcher does). -/
abbrev Matcher := Context → Bool × Context

/-- An action mutates the context or throws. -/
abbrev ActionFn := Context → Except Err Context

/-- One entry of a state's `matchers` array: `{matcher, actions}`. -/
structure Rule where
  matcher : Matcher
  actions : List ActionFn

/-- One entry of the builder's `states` table:
`{name, matchers, defaultActions, endActions}`. -/
structure StateV where
  name : String
  matchers : List Rule
  defaultActions : List ActionFn
  endActions : List ActionFn

/-- The `states` object: an insertion-ordered map from state name to state. -/
abbrev StateTable := List (String × StateV)

/-- `this.states[s]` (and `states[undefined]` is `undefined`). -/
def lookupTable : StateTable → Option String → Option StateV
  | [], _ => none
  | (k, v) :: rest, s => if some k = s then some v else lookupTable rest s

/-- `for(let action of actions) action(context)`: runs the actions in order,
returning the context reached so far together with the first thrown error,
if any. -/
def runActions : List ActionFn → Context → Context × Option Err
  | [], c => (c, none)
  | a :: as, c =>
    match a c with
    | .ok c' => runActions as c'
    | .error e => (c, some e)

/-- `state.matchers.find(m => m.matcher(context))`: evaluates the matchers in
declaration order, threading the context through their side effects, and
returns the actions of the first rule whose matcher evaluates true. Matchers
after the first match are not evaluated. -/
def findRule : List Rule → Context → Option (List ActionFn) × Context
  | [], c => (none, c)
  | r :: rs, c =>
    let p := r.matcher c
    if p.1 then (some r.actions, p.2) else findRule rs p.2

/-- The outcome of one pull on the output stream: a token, the end signal
(`undefined` from `next()`), or a thrown error. -/
inductive PullResult where
  | token (t : Token)
  | endSignal
  | fatal (e : Err)
deriving DecidableEq, Repr

/-- The `do … while(context.tokens.length == 0)` loop in
`StateMachine.process`'s `next()`: pull one input item, advance the position,
dispatch on the state the context is in at the top of the iteration, and
repeat until a token is queued or the input is exhausted. Returns the pull
result, the context, and the remaining input. -/
def processLoop (table : StateTable) : List Char → Context → PullResult × Context × List Char
  | [], ctx =>
    let c1 := { ctx with currentItem := none, currentPosition := ctx.currentPosition + 1 }
    match lookupTable table c1.state with
    | none => (.fatal (.missingState c1.state), c1, [])
    | some st =>
      match runActions st.endActions c1 with
      | (c2, some e) => (.fatal e, c2, [])
      | (c2, none) =>
        let c3 := { c2 with finished := true }
        match c3.tokens with
        | [] => (.endSignal, c3, [])
        | t :: ts => (.token t, { c3 with tokens := ts }, [])
  | item :: rest, ctx =>
    let c1 := { ctx with currentItem := some item, currentPosition := ctx.currentPosition + 1 }
    match lookupTable table c1.state with
    | none => (.fatal (.missingState c1.state), c1, rest)
    | some st =>
      let found := findRule st.matchers c1
      let acts := found.1.getD st.defaultActions
      match runActions acts found.2 with
      | (c3, some e) => (.fatal e, c3, rest)
      | (c3, none) =>
        match c3.tokens with
        | [] => processLoop table rest c3
        | t :: ts => (.token t, { c3 with tokens := ts }, rest)

/-- A built machine. `build()` copies `this.defaultState` (a string) and
`this.contextInitializer` into the new `StateMachine`, but the `states`
table is shared by reference with the builder (the source notes in a TODO
that the values are not cloned), so each pull reads the table as the
builder last left it; the table is therefore passed to `nextPull`
separately. -/
structure StateMachine where
  defaultState : Option String
  contextInitializer : Context → Context

/-- The state of one run: the context closed over by `next()`, plus the
remaining input of the streamified source. -/
structure RunState where
  ctx : Context
  input : List Char
deriving DecidableEq, Repr

/-- `process(input)`: allocate a fresh context on the default state and run
the registered context initializer over it. -/
def StateMachine.initRun (sm : StateMachine) (input : List Char) : RunState :=
  ⟨sm.contextInitializer (Context.init sm.defaultState), input⟩

/-- One call of the `next()` closure returned by `process`: a finished run
returns the end signal at once; otherwise a queued token is dequeued without
pulling input; otherwise the pull loop runs. -/
def nextPull (table : StateTable) (rs : RunState) : PullResult × RunState :=
  if rs.ctx.finished then (.endSignal, rs)
  else
    match rs.ctx.tokens with
    | t :: ts => (.token t, ⟨{ rs.ctx with tokens := ts }, rs.input⟩)
    | [] =>
      let res := processLoop table rs.input rs.ctx
      (res.1, ⟨res.2.1, res.2.2⟩)

/-- The first `n` pull results of a run. -/
def pullN (table : StateTable) : Nat → RunState → List PullResult
  | 0, _ => []
  | n + 1, rs =>
    let p := nextPull table rs
    p.1 :: pullN table n p.2

/-- `streamify` over a string yields its characters in order. -/
def strInput (s : String) : List Char := s.toList

/-- The `undefined`-aware rendering a JavaScript string concatenation gives
the current item: `buf += undefined` appends the text `undefined`. -/
def itemStr : Option Char → String
  | some ch => String.singleton ch
  | none => "undefined"

/-- Top of the char stack (`charstack[charstack.length-1]`), where the most
recently pushed entry is kept at the head; indexing an empty array yields
`undefined`. -/
def stackTop : List (Option Char) → Option Char
  | [] => none
  | t :: _ => t

namespace Tok

/-- `accept()`: `ctx.buffer += ctx.currentItem`. -/
def accept : ActionFn := fun c =>
  .ok { c with buffer := c.buffer ++ itemStr c.currentItem }

/-- `state(name)`: `ctx.changeState(name)` — an immediate write of the
context's state field; rule dispatch only reads that field at the top of
the next loop iteration. -/
def state (name : String) : ActionFn := fun c =>
  .ok (c.changeState (some name))

/-- `emit(type)`: enqueue `{type, value: ctx.buffer}` and clear the buffer. -/
def emit (ty : String) : ActionFn := fun c =>
  .ok { c.emit ⟨ty, c.buffer⟩ with buffer := "" }

/-- `error(msg)`: throw an `Error` whose message interpolates `msg`, the
current position and the current item. -/
def error (msg : String) : ActionFn := fun c =>
  .error (.abort msg c.currentPosition c.currentItem)

/-- `push()`: lazily create `ctx.charstack` and push the current item. -/
def push : ActionFn := fun c =>
  .ok { c with charstack := some (c.currentItem :: c.charstack.getD []) }

/-- `pop()`: a matcher, not an action. False when the char stack was never
created; otherwise compare the current item with the top entry
(`charstack[charstack.length-1]`, which is `undefined` for an empty array)
and, on equality, pop that entry as a side effect. -/
def pop : Matcher := fun c =>
  match c.charstack with
  | none => (false, c)
  | some stack =>
    if c.currentItem = stackTop stack then
      (true, { c with charstack := some stack.tail })
    else
      (false, c)

/-- `call(state)`: lazily create `ctx.callstack`, push the context's current
state name, then `ctx.changeState(state)`. -/
def call (name : String) : ActionFn := fun c =>
  .ok { c.changeState (some name) with
        callstack := some (c.state :: c.callstack.getD []) }

/-- `ret()`: throw when the callstack is missing or empty, else pop the top
state name and `changeState` to it. -/
def ret : ActionFn := fun c =>
  match c.callstack with
  | none => .error (.emptyCallstack c.state)
  | some [] => .error (.emptyCallstack c.state)
  | some (s :: rest) => .ok { c.changeState s with callstack := some rest }

end Tok

/-- The value passed as the first argument of `.on(...)`: a matcher function,
a literal compared with `===`, or a pattern (a `RegExp` in the source,
modelled as a character predicate). -/
inductive MatcherArg where
  | fn (f : Matcher)
  | lit (ch : Char)
  | pat (p : Char → Bool)

/-- The default matcher wrapper of `StateMachineBuilder`: a function is used
as-is, any other value is compared to the current item with `===` (a pattern
object is never `===` a character, so it matches nothing). -/
def defaultWrapper : MatcherArg → Matcher
  | .fn f => f
  | .lit ch => fun c => (decide (c.currentItem = some ch), c)
  | .pat _ => fun c => (false, c)

/-- The `Tokenizer()` matcher wrapper: a function as-is, a `RegExp` becomes
`ctx => !!ctx.currentItem.match(m)`, anything else `===` against the current
item. (The source would throw if a pattern were evaluated against the
end-of-input `undefined`; the engine never evaluates matchers there.) -/
def tokWrapper : MatcherArg → Matcher
  | .fn f => f
  | .lit ch => fun c => (decide (c.currentItem = some ch), c)
  | .pat p => fun c =>
    (match c.currentItem with
     | some ch => p ch
     | none => false, c)

/-- `ctx => { ctx.buffer = "" }`, installed by `Tokenizer()`. -/
def tokInit : Context → Context := fun c => { c with buffer := "" }

/-- `new StateMachineBuilder()`. -/
structure StateMachineBuilder where
  states : StateTable := []
  currentState : Option String := none
  defaultState : Option String := none
  matcherWrapper : MatcherArg → Matcher := defaultWrapper
  contextInitializer : Context → Context := fun c => c

/-- Replace the state stored under `key`, leaving the table's key order
unchanged (the JavaScript builder mutates the state object in place, which
the machine's shared table observes). -/
def updateState (tbl : StateTable) (key : String) (f : StateV → StateV) : StateTable :=
  tbl.map (fun kv => if kv.1 = key then (kv.1, f kv.2) else kv)

/-- JavaScript truthiness of the builder's `defaultState`: `undefined` and
the empty string are falsy. -/
def falsyName : Option String → Bool
  | none => true
  | some s => s = ""

/-- `.state(name)`: open (creating if absent) the state `name`; then, if
`this.defaultState` is falsy, set it to `name`. -/
def StateMachineBuilder.state (b : StateMachineBuilder) (name : String) : StateMachineBuilder :=
  let b' :=
    match lookupTable b.states (some name) with
    | some _ => { b with currentState := some name }
    | none =>
      { b with currentState := some name,
               states := b.states ++ [(name, ⟨name, [], [], []⟩)] }
  if falsyName b'.defaultState then { b' with defaultState := some name } else b'

/-- `.on(matcher, ...actions)`: wrap the matcher with the current wrapper and
append the rule to the open state's `matchers`. (With no open state the
source would throw; no call sequence studied here does that.) -/
def StateMachineBuilder.on (b : StateMachineBuilder) (m : MatcherArg)
    (actions : List ActionFn) : StateMachineBuilder :=
  match b.currentState with
  | none => b
  | some k =>
    let addRule := fun (st : StateV) =>
      { st with matchers := st.matchers ++ [⟨b.matcherWrapper m, actions⟩] }
    { b with states := updateState b.states k addRule }

/-- `.onEnd(...actions)`: overwrite the open state's `endActions`. -/
def StateMachineBuilder.onEnd (b : StateMachineBuilder)
    (actions : List ActionFn) : StateMachineBuilder :=
  match b.currentState with
  | none => b
  | some k =>
    { b with states := updateState b.states k (fun st => { st with endActions := actions }) }

/-- `.else(...actions)` (`else` is reserved in Lean): overwrite the open
state's `defaultActions`. -/
def StateMachineBuilder.elseRule (b : StateMachineBuilder)
    (actions : List ActionFn) : StateMachineBuilder :=
  match b.currentState with
  | none => b
  | some k =>
    { b with states := updateState b.states k (fun st => { st with defaultActions := actions }) }

/-- `.setMatcherWrapper(wrapper)`. -/
def StateMachineBuilder.setMatcherWrapper (b : StateMachineBuilder)
    (w : MatcherArg → Matcher) : StateMachineBuilder :=
  { b with matcherWrapper := w }

/-- `.setContextInitializer(initializer)`. -/
def StateMachineBuilder.setContextInitializer (b : StateMachineBuilder)
    (f : Context → Context) : StateMachineBuilder :=
  { b with contextInitializer := f }

/-- `.build()`: copies `defaultState` and `contextInitializer` into the new
machine; the states table is not cloned (the source's own TODO), so the
machine keeps reading the builder's table. -/
def StateMachineBuilder.build (b : StateMachineBuilder) : StateMachine :=
  ⟨b.defaultState, b.contextInitializer⟩

/-- `Tokenizer()`: a fresh builder with the tokenizer matcher wrapper and
buffer-clearing context initializer installed. -/
def tokenizerBuilder : StateMachineBuilder :=
  { matcherWrapper := tokWrapper, contextInitializer := tokInit }

/-- One builder call, reified so claims quantifying over arbitrary builder
call sequences can range over them. -/
inductive BOp where
  | declare (name : String)
  | on (m : MatcherArg) (actions : List ActionFn)
  | onEnd (actions : List ActionFn)
  | elseRule (actions : List ActionFn)
  | setWrapper (w : MatcherArg → Matcher)
  | setInit (f : Context → Context)

/-- Whether a builder call is a `.state(...)` declaration. -/
def BOp.isDeclare : BOp → Prop
  | .declare _ => True
  | _ => False

/-- Apply one reified builder call. -/
def applyOp (b : StateMachineBuilder) : BOp → StateMachineBuilder
  | .declare name => b.state name
  | .on m acts => b.on m acts
  | .onEnd acts => b.onEnd acts
  | .elseRule acts => b.elseRule acts
  | .setWrapper w => b.setMatcherWrapper w
  | .setInit f => b.setContextInitializer f

/-- Apply a sequence of builder calls in order. -/
def applyOps (b : StateMachineBuilder) : List BOp → StateMachineBuilder
  | [] => b
  | op :: ops => applyOps (applyOp b op) ops

/-- Scenario A builder: two states `text`/`color`; in `text`, `[` emits the
buffer as a `text` token and transitions to `color`, end of input emits the
buffer as `text`, anything else is accepted into the buffer; in `color`,
`]` emits the buffer as a `color` token and transitions back to `text`,
anything else is accepted. -/
def scABuilder : StateMachineBuilder :=
  ((((((tokenizerBuilder.state "text").on
      (.lit '[') [Tok.emit "text", Tok.state "color"]).onEnd
      [Tok.emit "text"]).elseRule [Tok.accept]).state "color").on
      (.lit ']') [Tok.emit "color", Tok.state "text"]).elseRule [Tok.accept]

/-- The states table of Scenario A, as the builder leaves it. -/
def scAStates : StateTable := scABuilder.states

/-- The machine built from Scenario A. -/
def scAMachine : StateMachine := scABuilder.build

/-- Scenario C builder: Scenario A plus an end-of-input rule on `color`
running `error("Unclosed color tag")`. -/
def scCBuilder : StateMachineBuilder :=
  (((((((tokenizerBuilder.state "text").on
      (.lit '[') [Tok.emit "text", Tok.state "color"]).onEnd
      [Tok.emit "text"]).elseRule [Tok.accept]).state "color").on
      (.lit ']') [Tok.emit "color", Tok.state "text"]).onEnd
      [Tok.error "Unclosed color tag"]).elseRule [Tok.accept]

/-- The states table of Scenario C. -/
def scCStates : StateTable := scCBuilder.states

/-- The machine built from Scenario C. -/
def scCMachine : StateMachine := scCBuilder.build

/-- A single-state machine whose end-of-input action list enqueues two
tokens: `{A,""}` then `{B,""}`. -/
def twoEndBuilder : StateMachineBuilder :=
  (tokenizerBuilder.state "s").onEnd [Tok.emit "A", Tok.emit "B"]

/-- The states table of `twoEndBuilder`. -/
def twoEndStates : StateTable := twoEndBuilder.states

/-- The machine built from `twoEndBuilder`. -/
def twoEndMachine : StateMachine := twoEndBuilder.build

/-- A single-state machine whose end-of-input action list enqueues one
token `{A,""}`. -/
def oneEndBuilder : StateMachineBuilder :=
  (tokenizerBuilder.state "s").onEnd [Tok.emit "A"]

/-- The states table of `oneEndBuilder`. -/
def oneEndStates : StateTable := oneEndBuilder.states

/-- The machine built from `oneEndBuilder`. -/
def oneEndMachine : StateMachine := oneEndBuilder.build

/-- A builder before any post-build mutation: one state `s` that accepts
every item into the buffer and emits it as `{text, buffer}` at end of
input. -/
def preBuildBuilder : StateMachineBuilder :=
  ((tokenizerBuilder.state "s").onEnd [Tok.emit "text"]).elseRule [Tok.accept]

/-- The machine built from `preBuildBuilder`. -/
def preBuildMachine : StateMachine := preBuildBuilder.build

/-- The same builder after `build()` has returned: the state `s` is reopened
and a rule `on('a', emit('X'))` is appended. The built machine shares the
table, so this mutation is visible to it. -/
def postBuildBuilder : StateMachineBuilder :=
  (preBuildBuilder.state "s").on (.lit 'a') [Tok.emit "X"]

/-- The context reached by threading the side effects of a rule list's
matchers, in declaration order, from a starting context. -/
def threadMatchers : List Rule → Context → Context
  | [], c => c
  | r :: rs, c => threadMatchers rs (r.matcher c).2

/-- Every matcher of the rule list evaluates false, each seeing the context
left by its predecessors' side effects. -/
def noneMatch : List Rule → Context → Bool
  | [], _ => true
  | r :: rs, c =>
    let p := r.matcher c
    !p.1 && noneMatch rs p.2

/-- An action that leaves the engine-owned cursor fields (`currentPosition`
and `currentItem`) unchanged whenever it returns normally. Every action of
the tokenizer vocabulary is of this kind. -/
def ActionTame (a : ActionFn) : Prop :=
  ∀ c c', a c = .ok c' →
    c'.currentPosition = c.currentPosition ∧ c'.currentItem = c.currentItem

/-- A matcher whose side effects leave the cursor fields unchanged. -/
def MatcherTame (m : Matcher) : Prop :=
  ∀ c, ((m c).2).currentPosition = c.currentPosition ∧ ((m c).2).currentItem = c.currentItem

/-- Every matcher and action reachable from a state is cursor-preserving. -/
def StateTame (st : StateV) : Prop :=
  (∀ r ∈ st.matchers, MatcherTame r.matcher ∧ ∀ a ∈ r.actions, ActionTame a)
  ∧ (∀ a ∈ st.defaultActions, ActionTame a)
  ∧ (∀ a ∈ st.endActions, ActionTame a)

/-- Every state reachable through the table is cursor-preserving. -/
def TableTame (table : StateTable) : Prop :=
  ∀ s st, lookupTable table s = some st → StateTame st

/-- The states table shared between `preBuildBuilder` and
`preBuildMachine`. -/
def preBuildStates : StateTable := preBuildBuilder.states

/-- A rule whose matcher (the default literal wrapper on `z`) does not match
the context `cWit` below. -/
def ruleNoMatch : Rule := ⟨defaultWrapper (.lit 'z'), [Tok.emit "zzz"]⟩

/-- A rule matching the current item `a`; declared earlier than
`ruleSecond`. -/
def ruleFirst : Rule := ⟨defaultWrapper (.lit 'a'), [Tok.emit "first"]⟩

/-- A second rule that would also match the current item `a`. -/
def ruleSecond : Rule := ⟨defaultWrapper (.lit 'a'), [Tok.emit "second"]⟩

/-- A run context whose current item is `a`. -/
def cWit : Context :=
  { Context.init (some "s") with currentItem := some 'a', currentPosition := 0 }

/-- A run context whose current item `q` equals the most recently pushed,
not-yet-popped entry of its char stack. -/
def cPopW : Context :=
  { Context.init (some "s") with
      currentItem := some 'q'
      charstack := some [some 'q', some 'w'] }

/-- A run context with a created-but-drained char stack and a defined
current item. -/
def cEmptyW : Context :=
  { Context.init (some "s") with currentItem := some 'x', charstack := some [] }

/-- C6: the Scenario A tokenizer, run on the input `a[b]c`, yields exactly
the tokens `{text,"a"}`, `{color,"b"}`, `{text,"c"}` and then the
end-of-sequence signal on every further pull. -/
theorem C6_scenarioA_tokens :
    pullN scAStates 5 (scAMachine.initRun (strInput "a[b]c")) =
      [.token ⟨"text", "a"⟩, .token ⟨"color", "b"⟩, .token ⟨"text", "c"⟩,
       .endSignal, .endSignal] := by
  rfl

/-- C5: the Scenario C tokenizer, run on the input `a[b`, raises on its
second pull a fatal condition carrying the message `Unclosed color tag`,
the 0-based position 3, and the end-of-input item. -/
theorem C5_scenarioC_abort :
    pullN scCStates 2 (scCMachine.initRun (strInput "a[b")) =
      [.token ⟨"text", "a"⟩, .fatal (.abort "Unclosed color tag" 3 none)] := by
  rfl

/-- C1 counterexample: in a rule whose action list is a transition to `B`
followed by `call("C")`, executed from active state `A`, the `call` pushes
the transition's target `B` onto the callstack — not the state `A` that was
active when the rule matched, contrary to the claim. -/
theorem C1_cex :
    (runActions [Tok.state "B", Tok.call "C"] (Context.init (some "A"))).1.callstack
      = some [some "B"]
    ∧ (some [some "B"] : Option (List (Option String))) ≠ some [some "A"] := by
  exact ⟨rfl, by decide⟩

/-- C1 amended: `changeState` writes the context's state field immediately,
so an action executing later in the same matched rule that inspects the
active state name observes the post-transition name: a transition to `s`
followed by `call(t)` pushes `s` (the transition's target) and leaves the
context in state `t`. The transition affects rule dispatch only at the top
of the next loop iteration, because `processLoop` reads the state field once
per iteration, before any action of that iteration runs. -/
theorem C1_amended (c : Context) (s t : String) :
    runActions [Tok.state s, Tok.call t] c =
      ({ c with state := some t,
                callstack := some (some s :: c.callstack.getD []) }, none) := by
  rfl

/-- C3: the built machine is not insulated from later builder calls.
`build()` hands the machine the builder's own states table (the source's
TODO notes the missing clone), so reopening state `s` after `build()` and
appending a rule changes what the already-built machine does: the same
machine, on the same input `a`, produces `{text,"a"}` before the mutation
and `{X,""}, {text,""}` after it. -/
theorem C3_shared_table :
    pullN preBuildStates 2 (preBuildMachine.initRun (strInput "a"))
      = [.token ⟨"text", "a"⟩, .endSignal]
    ∧ pullN postBuildBuilder.states 2 (preBuildMachine.initRun (strInput "a"))
      = [.token ⟨"X", ""⟩, .token ⟨"text", ""⟩]
    ∧ ([.token ⟨"text", "a"⟩, .endSignal] : List PullResult)
      ≠ [.token ⟨"X", ""⟩, .token ⟨"text", ""⟩] := by
  exact ⟨rfl, rfl, by decide⟩

/-- C2 counterexample: on a machine whose initial state's end-of-input
action list enqueues the two tokens `{A,""}` and `{B,""}`, running on empty
input returns `{A,""}` and then the end signal — the second queued token is
never delivered, because `next()` tests `context.finished` before draining
`context.tokens`. -/
theorem C2_cex :
    pullN twoEndStates 2 (twoEndMachine.initRun []) =
      [.token ⟨"A", ""⟩, .endSignal]
    ∧ ([.token ⟨"A", ""⟩, .endSignal] : List PullResult)
      ≠ [.token ⟨"A", ""⟩, .token ⟨"B", ""⟩] := by
  exact ⟨rfl, by decide⟩

/-- C2 amended: on empty input the initial state's end-of-input action list
runs once; the first pull returns the first token it enqueued (or the end
signal if it enqueued none) and marks the run finished; and every pull on a
finished run returns the end signal immediately — even when further tokens
remain queued. -/
theorem C2_amended (table : StateTable) (sm : StateMachine) (st : StateV) (cE : Context)
    (h0 : (sm.initRun []).ctx.finished = false)
    (h1 : (sm.initRun []).ctx.tokens = [])
    (h2 : lookupTable table (sm.initRun []).ctx.state = some st)
    (h3 : runActions st.endActions
        { (sm.initRun []).ctx with
            currentItem := none
            currentPosition := (sm.initRun []).ctx.currentPosition + 1 } = (cE, none)) :
    nextPull table (sm.initRun []) =
      (match cE.tokens with
       | [] => (.endSignal, ⟨{ cE with finished := true }, []⟩)
       | t :: ts => (.token t, ⟨{ cE with finished := true, tokens := ts }, []⟩))
    ∧ ∀ rs : RunState, rs.ctx.finished = true → nextPull table rs = (.endSignal, rs) := by
  constructor
  · simp only [h0, h1] at h3
    simp only [nextPull, h0, h1, processLoop]
    rw [h2]
    simp only [h3]
    cases htok : cE.tokens with
    | nil => simp [htok]
    | cons t ts => simp [htok]
  · intro rs hf
    simp [nextPull, hf]

/-- Witness for `C2_amended`: on the one-end-token machine the first pull
returns `{A,""}` and marks the run finished, and a pull on the finished run
state returns the end signal. -/
theorem C2_amended_witness :
    nextPull oneEndStates (oneEndMachine.initRun []) =
      (.token ⟨"A", ""⟩, ⟨⟨some "s", none, 0, [], true, "", none, none⟩, []⟩)
    ∧ nextPull oneEndStates ⟨⟨some "s", none, 0, [], true, "", none, none⟩, []⟩ =
      (.endSignal, ⟨⟨some "s", none, 0, [], true, "", none, none⟩, []⟩) := by
  have h := C2_amended oneEndStates oneEndMachine ⟨"s", [], [], [Tok.emit "A"]⟩
    ⟨some "s", none, 0, [⟨"A", ""⟩], false, "", none, none⟩ rfl rfl rfl rfl
  exact ⟨h.1, h.2 _ rfl⟩

/-- Builder calls other than `.state(...)` never touch `defaultState`. -/
theorem applyOp_defaultState (b : StateMachineBuilder) (op : BOp)
    (h : ¬ op.isDeclare) : (applyOp b op).defaultState = b.defaultState := by
  cases op
  case declare name => exact absurd trivial h
  all_goals
    first
      | rfl
      | (cases hc : b.currentState <;>
          simp [applyOp, StateMachineBuilder.on, StateMachineBuilder.onEnd,
                StateMachineBuilder.elseRule, hc])

/-- A call sequence with no `.state(...)` in it never touches
`defaultState`. -/
theorem applyOps_defaultState : ∀ (ops : List BOp) (b : StateMachineBuilder),
    (∀ op ∈ ops, ¬ op.isDeclare) →
    (applyOps b ops).defaultState = b.defaultState
  | [], b, _ => rfl
  | op :: ops, b, h => by
    have h1 := applyOp_defaultState b op (h op (by simp))
    have h2 := applyOps_defaultState ops (applyOp b op) (fun o ho => h o (by simp [ho]))
    simpa [applyOps, h1] using h2

/-- `.state(name)` on a builder whose `defaultState` is still unset makes
`name` the default state. -/
theorem state_sets_default (b : StateMachineBuilder) (name : String)
    (h : b.defaultState = none) : (b.state name).defaultState = some name := by
  cases hl : lookupTable b.states (some name) <;>
    simp [StateMachineBuilder.state, hl, falsyName, h]

/-- `.state(m)` on a builder whose `defaultState` is a non-empty (truthy)
name keeps that default state. -/
theorem state_keeps_default (b : StateMachineBuilder) (name m : String)
    (h : b.defaultState = some name) (hn : name ≠ "") :
    (b.state m).defaultState = some name := by
  cases hl : lookupTable b.states (some m) <;>
    simp [StateMachineBuilder.state, hl, falsyName, h, hn]

/-- A non-empty default state survives any further call sequence. -/
theorem applyOps_keeps_default : ∀ (ops : List BOp) (b : StateMachineBuilder)
    (name : String), b.defaultState = some name → name ≠ "" →
    (applyOps b ops).defaultState = some name
  | [], _, _, h, _ => h
  | op :: ops, b, name, h, hn => by
    have h1 : (applyOp b op).defaultState = some name := by
      cases op
      case declare m => exact state_keeps_default b name m h hn
      all_goals
        exact (applyOp_defaultState b _ (by simp [BOp.isDeclare])).trans h
    exact applyOps_keeps_default ops (applyOp b op) name h1 hn

/-- `applyOps` splits over list append. -/
theorem applyOps_append : ∀ (xs ys : List BOp) (b : StateMachineBuilder),
    applyOps b (xs ++ ys) = applyOps (applyOps b xs) ys
  | [], _, _ => rfl
  | x :: xs, ys, b => applyOps_append xs ys (applyOp b x)

/-- C9 counterexample: the empty string is a JavaScript-falsy state name, so
after declaring `""` first and then `"x"`, the builder's default (initial)
state is `"x"`, not the first-ever declared name `""`. -/
theorem C9_cex :
    (applyOps {} [.declare "", .declare "x"]).defaultState = some "x"
    ∧ (some "x" : Option String) ≠ some "" := by
  exact ⟨rfl, by decide⟩

/-- C9 amended: for every sequence of builder calls, the first-ever name
passed to `.state(...)` becomes and remains the initial (default) state,
provided that name is non-empty; the empty-string name is falsy in the
`if(!this.defaultState)` guard and is overwritten by the next declared
name. -/
theorem C9_amended (pre post : List BOp) (name : String) (hn : name ≠ "")
    (hpre : ∀ op ∈ pre, ¬ op.isDeclare) :
    (applyOps {} (pre ++ .declare name :: post)).defaultState = some name := by
  rw [applyOps_append]
  have h0 : (applyOps {} pre).defaultState = none :=
    applyOps_defaultState pre {} hpre
  have h1 : (applyOp (applyOps {} pre) (.declare name)).defaultState = some name :=
    state_sets_default _ name h0
  exact applyOps_keeps_default post _ name h1 hn

/-- Witness for `C9_amended`: `text` is declared first, stays the default
state after `color` is declared and after `text` itself is reopened. -/
theorem C9_amended_witness :
    (applyOps {} [.declare "text", .declare "color", .declare "text"]).defaultState
      = some "text" := by
  exact C9_amended [] [.declare "color", .declare "text"] "text" (by decide) (by simp)

/-- C4: rules are scanned in declaration order; if every rule before `r`
evaluates false (each seeing the side effects of its predecessors) and `r`'s
matcher evaluates true, then the scan selects exactly `r`'s action list —
whatever rules follow `r`, whose matchers are never evaluated (the result
does not depend on `rs2` at all). -/
theorem C4_first_match_wins : ∀ (rs1 rs2 : List Rule) (r : Rule) (c : Context),
    noneMatch rs1 c = true →
    (r.matcher (threadMatchers rs1 c)).1 = true →
    findRule (rs1 ++ r :: rs2) c =
      (some r.actions, (r.matcher (threadMatchers rs1 c)).2)
  | [], rs2, r, c, _, h2 => by
    simp only [threadMatchers] at h2 ⊢
    simp [findRule, h2, threadMatchers]
  | r0 :: rs, rs2, r, c, h1, h2 => by
    simp only [noneMatch, Bool.and_eq_true, Bool.not_eq_true'] at h1
    have hrec := C4_first_match_wins rs rs2 r (r0.matcher c).2 h1.2
      (by simpa [threadMatchers] using h2)
    simp only [List.cons_append, findRule, threadMatchers, h1.1]
    simpa [threadMatchers] using hrec

/-- Witness for `C4_first_match_wins`: with a non-matching rule first and two
rules that would both match the current item `a`, the scan selects the
earlier-declared matching rule's actions. -/
theorem C4_witness :
    findRule [ruleNoMatch, ruleFirst, ruleSecond] cWit =
      (some [Tok.emit "first"], cWit) := by
  exact C4_first_match_wins [ruleNoMatch] [ruleSecond] ruleFirst cWit rfl rfl

/-- C7: on a run context whose current item is defined (as it always is when
the engine evaluates matchers — the rule scan only runs on the branch where
the pulled item is not the end signal), `pop()` evaluates true exactly when
the current item equals the most recently pushed, not-yet-popped entry of
the value stack; on success it removes exactly that top entry, and on
failure it leaves the context unchanged. -/
theorem C7_pop_matcher (c : Context) (ch : Char) (h : c.currentItem = some ch) :
    ((Tok.pop c).1 = true ↔ ∃ rest, c.charstack = some (c.currentItem :: rest))
    ∧ (∀ rest, c.charstack = some (c.currentItem :: rest) →
        Tok.pop c = (true, { c with charstack := some rest }))
    ∧ ((Tok.pop c).1 = false → (Tok.pop c).2 = c) := by
  rcases hs : c.charstack with _ | stack
  · refine ⟨by simp [Tok.pop, hs], ?_, ?_⟩
    · intro rest hcontra
      simp at hcontra
    · intro
      simp [Tok.pop, hs]
  · rcases stack with _ | ⟨top, rest0⟩
    · refine ⟨by simp [Tok.pop, hs, stackTop, h], ?_, ?_⟩
      · intro rest hcontra
        simp at hcontra
      · intro
        simp [Tok.pop, hs, stackTop, h]
    · by_cases he : c.currentItem = top
      · refine ⟨⟨fun _ => ⟨rest0, by rw [he]⟩, fun _ => ?_⟩, ?_, ?_⟩
        · simp [Tok.pop, hs, stackTop, he]
        · intro rest hrest
          have hr : rest0 = rest := (List.cons.inj (Option.some.inj hrest)).2
          subst hr
          simp [Tok.pop, hs, stackTop, he]
        · intro hfalse
          simp [Tok.pop, hs, stackTop, he] at hfalse
      · refine ⟨⟨fun hfalse => ?_, fun hex => ?_⟩, ?_, ?_⟩
        · exfalso
          simp [Tok.pop, hs, stackTop, he] at hfalse
        · exfalso
          obtain ⟨rest, hrest⟩ := hex
          exact absurd ((List.cons.inj (Option.some.inj hrest)).1).symm he
        · intro rest hrest
          exact absurd ((List.cons.inj (Option.some.inj hrest)).1).symm he
        · intro
          simp only [Tok.pop, hs, stackTop]
          rw [if_neg he]

/-- Witness for `C7_pop_matcher`: with current item `q` and char stack
`[q, w]` (most recent push first), `pop()` succeeds and removes exactly the
top entry. -/
theorem C7_pop_matcher_witness :
    Tok.pop cPopW = (true, { cPopW with charstack := some [some 'w'] }) := by
  exact (C7_pop_matcher cPopW 'q' rfl).2.1 [some 'w'] rfl

/-- C10: on a run context whose current item is defined (as it always is
when the engine evaluates matchers) and whose value stack was never created
or has been fully drained, `pop()` evaluates false without error and without
modifying the context, and a rule guarded by `pop()` is skipped by the rule
scan exactly as if it were absent. -/
theorem C10_pop_empty (c : Context) (hitem : c.currentItem ≠ none)
    (hstack : c.charstack = none ∨ c.charstack = some []) :
    Tok.pop c = (false, c)
    ∧ ∀ (acts : List ActionFn) (rules : List Rule),
        findRule (⟨Tok.pop, acts⟩ :: rules) c = findRule rules c := by
  have hp : Tok.pop c = (false, c) := by
    rcases hstack with hs | hs
    · simp [Tok.pop, hs]
    · simp only [Tok.pop, hs, stackTop]
      rw [if_neg hitem]
  refine ⟨hp, ?_⟩
  intro acts rules
  simp [findRule, hp]

/-- Witness for `C10_pop_empty`: a context with current item `x` and a
created-but-drained char stack; `pop()` returns false and a pop-guarded
rule is skipped. -/
theorem C10_pop_empty_witness :
    Tok.pop cEmptyW = (false, cEmptyW)
    ∧ findRule [⟨Tok.pop, []⟩] cEmptyW = findRule [] cEmptyW := by
  have h := C10_pop_empty cEmptyW (by simp [cEmptyW]) (Or.inr rfl)
  exact ⟨h.1, h.2 [] []⟩

/-- Running a cursor-preserving action list preserves the cursor, also when
an action throws partway (the context reached so far is kept). -/
theorem runActions_tame : ∀ (acts : List ActionFn), (∀ a ∈ acts, ActionTame a) →
    ∀ c : Context, (runActions acts c).1.currentPosition = c.currentPosition
      ∧ (runActions acts c).1.currentItem = c.currentItem
  | [], _, c => ⟨rfl, rfl⟩
  | a :: as, h, c => by
    simp only [runActions]
    cases hc : a c with
    | ok c' =>
      have h1 := h a (by simp) c c' hc
      have h2 := runActions_tame as (fun b hb => h b (by simp [hb])) c'
      exact ⟨h2.1.trans h1.1, h2.2.trans h1.2⟩
    | error e => exact ⟨rfl, rfl⟩

/-- Scanning a list of cursor-preserving matchers preserves the cursor. -/
theorem findRule_tame : ∀ (rules : List Rule), (∀ r ∈ rules, MatcherTame r.matcher) →
    ∀ c : Context, (findRule rules c).2.currentPosition = c.currentPosition
      ∧ (findRule rules c).2.currentItem = c.currentItem
  | [], _, c => ⟨rfl, rfl⟩
  | r :: rs, h, c => by
    have hm := h r (by simp) c
    simp only [findRule]
    by_cases hb : (r.matcher c).1
    · simp only [hb, if_true]
      exact hm
    · simp only [hb, if_false]
      have hrec := findRule_tame rs (fun r' hr => h r' (by simp [hr])) (r.matcher c).2
      exact ⟨hrec.1.trans hm.1, hrec.2.trans hm.2⟩

/-- The action list selected by the rule scan comes from one of the rules. -/
theorem findRule_mem : ∀ (rules : List Rule) (c : Context) (acts : List ActionFn),
    (findRule rules c).1 = some acts → ∃ r ∈ rules, r.actions = acts
  | [], c, acts, h => by simp [findRule] at h
  | r :: rs, c, acts, h => by
    simp only [findRule] at h
    by_cases hb : (r.matcher c).1
    · simp only [hb, if_true] at h
      exact ⟨r, by simp, Option.some.inj h⟩
    · simp only [hb, if_false] at h
      obtain ⟨r', hr', ha⟩ := findRule_mem rs (r.matcher c).2 acts h
      exact ⟨r', by simp [hr'], ha⟩

/-- `accept` never moves the cursor. -/
theorem accept_tame : ActionTame Tok.accept := by
  intro c c' h
  simp only [Tok.accept, Except.ok.injEq] at h
  subst h
  exact ⟨rfl, rfl⟩

/-- `emit` never moves the cursor. -/
theorem emit_tame (ty : String) : ActionTame (Tok.emit ty) := by
  intro c c' h
  simp only [Tok.emit, Context.emit, Except.ok.injEq] at h
  subst h
  exact ⟨rfl, rfl⟩

/-- `state` never moves the cursor. -/
theorem state_tame (s : String) : ActionTame (Tok.state s) := by
  intro c c' h
  simp only [Tok.state, Context.changeState, Except.ok.injEq] at h
  subst h
  exact ⟨rfl, rfl⟩

/-- `call` never moves the cursor. -/
theorem call_tame (s : String) : ActionTame (Tok.call s) := by
  intro c c' h
  simp only [Tok.call, Context.changeState, Except.ok.injEq] at h
  subst h
  exact ⟨rfl, rfl⟩

/-- `ret` never moves the cursor when it returns normally. -/
theorem ret_tame : ActionTame Tok.ret := by
  intro c c' h
  rcases hc : c.callstack with _ | ⟨_ | ⟨s, rest⟩⟩ <;>
    simp only [Tok.ret, hc, Except.ok.injEq, reduceCtorEq] at h
  subst h
  exact ⟨rfl, rfl⟩

/-- `push` never moves the cursor. -/
theorem push_tame : ActionTame Tok.push := by
  intro c c' h
  simp only [Tok.push, Except.ok.injEq] at h
  subst h
  exact ⟨rfl, rfl⟩

/-- `error` never returns normally, so it is vacuously cursor-preserving. -/
theorem error_tame (msg : String) : ActionTame (Tok.error msg) := by
  intro c c' h
  simp only [Tok.error, reduceCtorEq] at h

/-- The `pop` matcher never moves the cursor. -/
theorem pop_tame : MatcherTame Tok.pop := by
  intro c
  rcases hs : c.charstack with _ | stack
  · simp [Tok.pop, hs]
  · simp only [Tok.pop, hs]
    by_cases he : c.currentItem = stackTop stack
    · rw [if_pos he]
      exact ⟨rfl, rfl⟩
    · rw [if_neg he]
      exact ⟨rfl, rfl⟩

/-- Each iteration of the pull loop advances the position counter by exactly
one per pulled input item — including the final pull that observes end of
input (recognizable by the returned context's current item being the end
signal) — provided the table's matchers and actions leave the engine-owned
cursor fields alone. -/
theorem processLoop_pos (table : StateTable) (h : TableTame table) :
    ∀ (input : List Char) (ctx : Context) (r : PullResult) (c' : Context) (input' : List Char),
      processLoop table input ctx = (r, c', input') →
      c'.currentPosition = ctx.currentPosition
          + ((input.length : Int) - (input'.length : Int))
          + (if c'.currentItem = none then 1 else 0)
        ∧ input'.length ≤ input.length := by
  intro input
  induction input with
  | nil =>
    intro ctx r c' input' heq
    simp only [processLoop] at heq
    split at heq
    case h_1 hl =>
      simp only [Prod.mk.injEq] at heq
      obtain ⟨hr, hc, hi⟩ := heq
      subst hc
      subst hi
      refine ⟨by simp, le_refl _⟩
    case h_2 st hl =>
      have ht := runActions_tame st.endActions ((h _ _ hl).2.2)
        { ctx with currentItem := none, currentPosition := ctx.currentPosition + 1 }
      split at heq
      case h_1 c2 e hra =>
        rw [hra] at ht
        have ht1 : c2.currentPosition = ctx.currentPosition + 1 := ht.1
        have ht2 : c2.currentItem = none := ht.2
        simp only [Prod.mk.injEq] at heq
        obtain ⟨hr, hc, hi⟩ := heq
        subst hc
        subst hi
        refine ⟨by simp [ht1, ht2], le_refl _⟩
      case h_2 c2 hra =>
        rw [hra] at ht
        have ht1 : c2.currentPosition = ctx.currentPosition + 1 := ht.1
        have ht2 : c2.currentItem = none := ht.2
        split at heq
        case h_1 htok =>
          simp only [Prod.mk.injEq] at heq
          obtain ⟨hr, hc, hi⟩ := heq
          subst hc
          subst hi
          refine ⟨by simp [ht1, ht2], le_refl _⟩
        case h_2 t ts htok =>
          simp only [Prod.mk.injEq] at heq
          obtain ⟨hr, hc, hi⟩ := heq
          subst hc
          subst hi
          refine ⟨by simp [ht1, ht2], le_refl _⟩
  | cons item rest ih =>
    intro ctx r c' input' heq
    simp only [processLoop] at heq
    split at heq
    case h_1 hl =>
      simp only [Prod.mk.injEq] at heq
      obtain ⟨hr, hc, hi⟩ := heq
      subst hc
      subst hi
      constructor
      · simp [List.length_cons]
      · simp [List.length_cons]
    case h_2 st hl =>
      set c1 : Context := { ctx with currentItem := some item, currentPosition := ctx.currentPosition + 1 } with hc1
      have hmt : ∀ r' ∈ st.matchers, MatcherTame r'.matcher :=
        fun r' hr' => ((h _ _ hl).1 r' hr').1
      have hfind := findRule_tame st.matchers hmt c1
      have hacts : ∀ a ∈ ((findRule st.matchers c1).1.getD st.defaultActions), ActionTame a := by
        rcases hfr : (findRule st.matchers c1).1 with _ | acts0
        · simpa using (h _ _ hl).2.1
        · simp only [Option.getD_some]
          obtain ⟨r', hr', hra⟩ := findRule_mem st.matchers c1 acts0 hfr
          intro a ha
          exact ((h _ _ hl).1 r' hr').2 a (by rw [hra]; exact ha)
      have ht := runActions_tame _ hacts (findRule st.matchers c1).2
      have hc1pos : c1.currentPosition = ctx.currentPosition + 1 := by rw [hc1]
      have hc1item : c1.currentItem = some item := by rw [hc1]
      split at heq
      case h_1 c3 e hrae =>
        rw [hrae] at ht
        have ht1 : c3.currentPosition = ctx.currentPosition + 1 :=
          (ht.1.trans hfind.1).trans hc1pos
        have ht2 : c3.currentItem = some item :=
          (ht.2.trans hfind.2).trans hc1item
        simp only [Prod.mk.injEq] at heq
        obtain ⟨hr, hc, hi⟩ := heq
        subst hc
        subst hi
        constructor
        · simp [ht1, ht2, List.length_cons]
        · simp [List.length_cons]
      case h_2 c3 hrae =>
        rw [hrae] at ht
        have ht1 : c3.currentPosition = ctx.currentPosition + 1 :=
          (ht.1.trans hfind.1).trans hc1pos
        split at heq
        case h_1 htok =>
          have hrec := ih c3 r c' input' heq
          constructor
          · have h1 := hrec.1
            rw [ht1] at h1
            simp only [List.length_cons]
            generalize (if c'.currentItem = none then (1 : Int) else 0) = ind at h1 ⊢
            push_cast at h1 ⊢
            omega
          · have h2 := hrec.2
            simp only [List.length_cons]
            omega
        case h_2 t ts htok =>
          have ht2 : c3.currentItem = some item :=
            (ht.2.trans hfind.2).trans hc1item
          simp only [Prod.mk.injEq] at heq
          obtain ⟨hr, hc, hi⟩ := heq
          subst hc
          subst hi
          constructor
          · simp [ht1, ht2, List.length_cons]
          · simp [List.length_cons]

/-- C8: the position counter starts at -1 and is incremented once per pulled
input item, so the first item is observed at position 0; across any stretch
of the pull loop the counter grows by exactly the number of input items
pulled, counting the final end-of-input pull (whose returned context carries
the end-signal item), and independently of how many tokens were queued; a
pull served from the token queue dequeues one token and changes nothing else
— in particular not the position; and no action or matcher of the tokenizer
vocabulary touches the engine-owned cursor fields. -/
theorem C8_position (d : Option String) (table : StateTable)
    (input : List Char) (ctx c' : Context) (r : PullResult) (input' : List Char)
    (rs : RunState) (t : Token) (ts : List Token)
    (htame : TableTame table)
    (hloop : processLoop table input ctx = (r, c', input'))
    (hfin : rs.ctx.finished = false) (htok : rs.ctx.tokens = t :: ts) :
    (Context.init d).currentPosition = -1
    ∧ (c'.currentPosition = ctx.currentPosition
        + ((input.length : Int) - (input'.length : Int))
        + (if c'.currentItem = none then 1 else 0)
      ∧ input'.length ≤ input.length)
    ∧ nextPull table rs = (.token t, ⟨{ rs.ctx with tokens := ts }, rs.input⟩)
    ∧ (∀ ty, ActionTame (Tok.emit ty)) ∧ ActionTame Tok.accept
    ∧ (∀ s, ActionTame (Tok.state s)) ∧ (∀ s, ActionTame (Tok.call s))
    ∧ ActionTame Tok.ret ∧ ActionTame Tok.push
    ∧ (∀ msg, ActionTame (Tok.error msg)) ∧ MatcherTame Tok.pop := by
  refine ⟨rfl, processLoop_pos table htame input ctx r c' input' hloop, ?_,
    emit_tame, accept_tame, state_tame, call_tame, ret_tame, push_tame,
    error_tame, pop_tame⟩
  simp [nextPull, hfin, htok]

/-- The one-state accept-and-emit table, written out. -/
theorem preBuildStates_eq :
    preBuildStates = [("s", ⟨"s", [], [Tok.accept], [Tok.emit "text"]⟩)] := rfl

/-- Every matcher and action of `preBuildStates` is cursor-preserving. -/
theorem preBuild_tame : TableTame preBuildStates := by
  intro s st hl
  rw [preBuildStates_eq] at hl
  simp only [lookupTable] at hl
  split at hl
  · obtain rfl : (⟨"s", [], [Tok.accept], [Tok.emit "text"]⟩ : StateV) = st :=
      Option.some.inj hl
    refine ⟨?_, ?_, ?_⟩
    · intro r hr
      exact absurd hr (by simp)
    · intro a ha
      have : a = Tok.accept := by simpa using ha
      rw [this]
      exact accept_tame
    · intro a ha
      have : a = Tok.emit "text" := by simpa using ha
      rw [this]
      exact emit_tame "text"
  · simp [lookupTable] at hl

/-- Witness for `C8_position`: the accept-and-emit machine on input `a`:
the loop pulls `a` (position 0) and then the end signal (position 1), the
final context's position is `-1 + 2`, and a queued token is served without
touching the rest of the run state. -/
theorem C8_position_witness :
    (Context.init (some "s")).currentPosition = -1
    ∧ ((⟨some "s", none, 1, [], true, "", none, none⟩ : Context).currentPosition =
        (Context.init (some "s")).currentPosition
        + (((['a'] : List Char).length : Int) - (([] : List Char).length : Int))
        + (if (⟨some "s", none, 1, [], true, "", none, none⟩ : Context).currentItem = none
           then 1 else 0)
      ∧ ([] : List Char).length ≤ (['a'] : List Char).length)
    ∧ nextPull preBuildStates ⟨{ Context.init (some "s") with tokens := [⟨"q", "v"⟩] }, []⟩ =
        (.token ⟨"q", "v"⟩,
         ⟨{ Context.init (some "s") with tokens := [] }, []⟩)
    ∧ (∀ ty, ActionTame (Tok.emit ty)) ∧ ActionTame Tok.accept
    ∧ (∀ s, ActionTame (Tok.state s)) ∧ (∀ s, ActionTame (Tok.call s))
    ∧ ActionTame Tok.ret ∧ ActionTame Tok.push
    ∧ (∀ msg, ActionTame (Tok.error msg)) ∧ MatcherTame Tok.pop := by
  exact C8_position (some "s") preBuildStates ['a'] (Context.init (some "s"))
    ⟨some "s", none, 1, [], true, "", none, none⟩ (.token ⟨"text", "a"⟩) []
    ⟨{ Context.init (some "s") with tokens := [⟨"q", "v"⟩] }, []⟩ ⟨"q", "v"⟩ []
    preBuild_tame rfl rfl rfl
